import Mathlib

/-!
Verification of the wafer-defect monitoring repository: a shallow embedding of
`Repository/Data_Aggregator.py` (class `DataAggregator`) and
`Repository/Manufacturing_Simulation.py` (classes `ManufacturingMachine` and
`ManufacturingProcessController`), together with theorems settling the frozen
claims about them.

Modelling conventions:
* JSON numbers are modelled as `ℚ`.  The Python code stores floats; none of the
  properties proved here depends on binary floating-point artefacts, only on
  counting, ordering, exact division and decimal rounding.
* A Python dict field that may be absent is an outer `Option`; a field whose
  value may be JSON `null` (Python `None`) carries an inner `Option`.  So
  `defect_percentage : Option (Option ℚ)` distinguishes an absent key (`none`)
  from an explicit null (`some none`) from a number (`some (some v)`).
* Python code that can raise is embedded in `Except String`; the error string
  names the exception.  Code that cannot raise is a plain function.
* `round(x, n)` is modelled as half-up decimal rounding on `ℚ` (`roundTo`).
  Python rounds floats half-to-even on the underlying binary value; the two
  agree except at exact decimal ties, and every theorem below only uses the
  half-ulp error bound, which both satisfy.
-/

/-- A Python numeric value that may be `None`: `none` models Python `None`. -/
abbrev PyNum := Option ℚ

/-- Python `d.get(k)` on a numeric field: absent key and `null` both give `None`. -/
def pyGet (f : Option PyNum) : Option ℚ := f.getD none

/-- Python `d.get(k, 0)` on a numeric field: absent key gives `0`, an explicit
`null` stays `None`, a number is returned as is. -/
def pyGetD0 (f : Option PyNum) : PyNum := f.getD (some 0)

/-- Python `sum(l) / len(l) if l else 0`. -/
def listMean (l : List ℚ) : ℚ := if l = [] then 0 else l.sum / l.length

/-- Half-up rounding to an integer, via the executable `Rat.floor`. -/
def roundHalfUp (q : ℚ) : ℤ := Rat.floor (q + 1 / 2)

/-- Python `round(x, digits)` (up to tie-breaking, see the header comment). -/
def roundTo (digits : ℕ) (q : ℚ) : ℚ :=
  (roundHalfUp (q * 10 ^ digits) : ℚ) / 10 ^ digits

/-- The nested dict stored under the `"prediction"` key of a wafer record. -/
structure Prediction where
  /-- The `"Defect Class"` key; `none` models an absent key. -/
  defectClass : Option String
  /-- The `"Confidence Score"` key; `none` = absent, `some none` = null. -/
  confidenceScore : Option PyNum
  deriving DecidableEq

/-- One wafer result dict as loaded from a results JSON file.  Only the keys
the aggregation code reads are modelled.  For string-valued keys the code
treats an absent key and a null value identically (both read back as `None`,
which is `≠` every string), so a single `Option` suffices there. -/
structure WaferRecord where
  machine_id : Option String
  machine_type : Option String
  simulation_date : Option String
  quality_status : Option String
  defect_percentage : Option PyNum
  prediction : Option Prediction
  deriving DecidableEq

/-- `result.get("defect_percentage")`. -/
def WaferRecord.pct (r : WaferRecord) : Option ℚ := pyGet r.defect_percentage

/-- `result.get("defect_percentage", 0)`. -/
def WaferRecord.pctD0 (r : WaferRecord) : PyNum := pyGetD0 r.defect_percentage

/-- `result.get("prediction", {}).get("Confidence Score")`. -/
def WaferRecord.confGet (r : WaferRecord) : Option ℚ :=
  match r.prediction with
  | none => none
  | some p => pyGet p.confidenceScore

/-- `result.get("prediction", {}).get("Confidence Score", 0)`. -/
def WaferRecord.confGetD0 (r : WaferRecord) : PyNum :=
  match r.prediction with
  | none => some 0
  | some p => pyGetD0 p.confidenceScore

/-- `result.get("prediction", {}).get("Defect Class", "Unknown")`. -/
def WaferRecord.defectClassOf (r : WaferRecord) : String :=
  match r.prediction with
  | none => "Unknown"
  | some p => p.defectClass.getD "Unknown"

/-!
## `Manufacturing_Simulation.py`: pass/fail analysis and machine state
-/

/-- `defect_threshold = 40.0` in `process_wafer_with_analysis`. -/
def ManufacturingProcessController.defect_threshold : ℚ := 40

/-- The fields of the analysis result dict that the pass/fail decision writes
(`quality_status`, `defect_threshold`, `defect_percentage`,
`threshold_exceeded`); the pass-through wafer-info and prediction fields are
not re-modelled here. -/
structure AnalysisResult where
  quality_status : String
  defect_threshold : ℚ
  defect_percentage : ℚ
  threshold_exceeded : Bool
  deriving DecidableEq

/-- The pass/fail tail of `ManufacturingProcessController.process_wafer_with_analysis`
(lines 387-406).  Its input is the `"defect_percentage"` entry of
`defect_count_result`; the wrapper code above those lines guarantees the key
holds a number (the scorer returns a float and every failure path substitutes
`{"defect_percentage": 0.0}`), and `.get(k, 0.0)` additionally defaults an
absent key to `0.0`, which the `Option` input models. -/
def ManufacturingProcessController.process_wafer_with_analysis
    (defect_count_pct : Option ℚ) : AnalysisResult :=
  let defect_percentage := defect_count_pct.getD 0
  let is_pass := decide (defect_percentage ≤ ManufacturingProcessController.defect_threshold)
  { quality_status := if is_pass then "PASS" else "FAIL"
    defect_threshold := ManufacturingProcessController.defect_threshold
    defect_percentage := defect_percentage
    threshold_exceeded :=
      decide (ManufacturingProcessController.defect_threshold < defect_percentage) }

/-- The mutable state of one `ManufacturingMachine`. -/
structure MachineState where
  machine_id : String
  machine_type : String
  is_running : Bool
  processed_wafers : ℕ
  wafer_counter : ℕ
  deriving DecidableEq

/-- Python `f"W{n:04d}"` zero-padding (pad with zeros to width 4). -/
def pad4 (n : ℕ) : String :=
  let s := toString n
  String.mk (List.replicate (4 - s.length) '0') ++ s

/-- The raw wafer-info dict returned by a successful `process_wafer` call. -/
structure WaferInfo where
  wafer_id : String
  machine_id : String
  machine_type : String
  image_path : String
  deriving DecidableEq

/-- `ManufacturingMachine.process_wafer` (lines 181-209).  The image
generator's outcome for this call (a path, or `None` on failure) is passed in
as `generated_image`, externalising its randomness and file-system access. -/
def ManufacturingMachine.process_wafer (m : MachineState)
    (generated_image : Option String) : MachineState × Option WaferInfo :=
  if m.is_running = false then (m, none)
  else
    let m1 : MachineState := { m with wafer_counter := m.wafer_counter + 1 }
    let wafer_id :=
      m.machine_type ++ "_" ++ m.machine_id ++ "_W" ++ pad4 m1.wafer_counter
    match generated_image with
    | none => (m1, none)
    | some p =>
      ({ m1 with processed_wafers := m1.processed_wafers + 1 },
       some { wafer_id := wafer_id, machine_id := m.machine_id,
              machine_type := m.machine_type, image_path := p })

/-!
## `Data_Aggregator.py`: the `DataAggregator` class

Each method is embedded as a function of the loaded record list `data`
(`self.data` in Python).  The derived pandas dataframe `self.df` is only used
by `get_time_series_data`, which no claim touches, so it is not modelled.
-/

/-- `DEFECT_PERCENTAGE_THRESHOLD` from `config_LLM.py` (value `40.0`). -/
def DEFECT_PERCENTAGE_THRESHOLD : ℚ := 40

/-- The summary dict built by `get_summary_statistics` in the data-present
branch. -/
structure SummaryStats where
  total_wafers : ℕ
  pass_count : ℕ
  fail_count : ℕ
  pass_rate : ℚ
  fail_rate : ℚ
  average_defect_percentage : ℚ
  average_confidence : ℚ
  deriving DecidableEq

/-- The list comprehension
`[r.get("defect_percentage", 0) for r in data if r.get("defect_percentage") is not None]`. -/
def DataAggregator.summaryDefectPercentages (data : List WaferRecord) : List ℚ :=
  (data.filter fun r => r.pct.isSome).map fun r => r.pctD0.getD 0

/-- The list comprehension collecting `Confidence Score` values
(`r.get("prediction", {}).get("Confidence Score", 0)` guarded by an
is-not-None check on the same lookup without the default). -/
def DataAggregator.summaryConfidences (data : List WaferRecord) : List ℚ :=
  (data.filter fun r => r.confGet.isSome).map fun r => r.confGetD0.getD 0

/-- `DataAggregator.get_summary_statistics` (lines 130-168).  The
`{"error": "No data loaded"}` marker is the `Except.error` branch. -/
def DataAggregator.get_summary_statistics (data : List WaferRecord) :
    Except String SummaryStats :=
  if data = [] then .error "No data loaded"
  else
    let total_wafers := data.length
    let pass_count := data.countP fun r => r.quality_status == some "PASS"
    let fail_count := total_wafers - pass_count
    let avg_defect := listMean (DataAggregator.summaryDefectPercentages data)
    let avg_conf := listMean (DataAggregator.summaryConfidences data)
    .ok { total_wafers := total_wafers
          pass_count := pass_count
          fail_count := fail_count
          pass_rate := if 0 < total_wafers then (pass_count : ℚ) / total_wafers * 100 else 0
          fail_rate := if 0 < total_wafers then (fail_count : ℚ) / total_wafers * 100 else 0
          average_defect_percentage := roundTo 2 avg_defect
          average_confidence := roundTo 4 avg_conf }

/-- `DataAggregator.filter_by_simulation_date` (lines 76-88). -/
def DataAggregator.filter_by_simulation_date (data : List WaferRecord)
    (simulation_date : String) : List WaferRecord :=
  if data = [] then []
  else data.filter fun r => r.simulation_date == some simulation_date

/-- `DataAggregator.get_daily_statistics` (lines 106-128): filter by date,
return an error marker naming the date when nothing matches, otherwise the
summary statistics of a temporary aggregator holding the filtered data. -/
def DataAggregator.get_daily_statistics (data : List WaferRecord)
    (simulation_date : String) : Except String SummaryStats :=
  let daily_data := DataAggregator.filter_by_simulation_date data simulation_date
  if daily_data = [] then .error ("No data found for date " ++ simulation_date)
  else DataAggregator.get_summary_statistics daily_data

/-- `DataAggregator.get_anomalies` loop body (lines 302-306): collect, in
order, every record whose `result.get("defect_percentage", 0)` is strictly
above the threshold.  A record whose `defect_percentage` is an explicit null
makes the Python comparison `None > threshold` raise `TypeError`. -/
def DataAggregator.collectAnomalies (threshold_percentage : ℚ) :
    List WaferRecord → Except String (List WaferRecord)
  | [] => .ok []
  | r :: rs =>
    match r.pctD0 with
    | none => .error "TypeError: comparison of NoneType and float"
    | some defect_pct =>
      match DataAggregator.collectAnomalies threshold_percentage rs with
      | .error e => .error e
      | .ok rest =>
        if threshold_percentage < defect_pct then .ok (r :: rest) else .ok rest

/-- The key used by the final `anomalies.sort(key=..., reverse=True)`:
`x.get("defect_percentage", 0)`.  In the sorted list every record's percentage
is a number (a null would already have raised in the collection loop), so the
`getD 0` only unwraps. -/
def DataAggregator.anomalyKey (r : WaferRecord) : ℚ := r.pctD0.getD 0

/-- `DataAggregator.get_anomalies` (lines 289-311): collect the records above
the threshold, then stable-sort them descending by defect percentage
(`list.sort` in CPython is a stable merge sort; `reverse=True` keeps ties in
their original relative order). -/
def DataAggregator.get_anomalies (data : List WaferRecord)
    (threshold_percentage : ℚ := 50) : Except String (List WaferRecord) :=
  if data = [] then .ok []
  else
    match DataAggregator.collectAnomalies threshold_percentage data with
    | .error e => .error e
    | .ok anomalies =>
      .ok (anomalies.mergeSort fun a b =>
        decide (DataAggregator.anomalyKey b ≤ DataAggregator.anomalyKey a))

/-- Key of the per-machine grouping:
`f"{machine_type}_{machine_id}"` with both parts defaulting to `"Unknown"`. -/
def DataAggregator.machineKey (r : WaferRecord) : String :=
  r.machine_type.getD "Unknown" ++ "_" ++ r.machine_id.getD "Unknown"

/-- The raw per-machine accumulator of `get_machine_statistics`
(the `defaultdict` entry). -/
structure MachineAcc where
  total : ℕ
  pass : ℕ
  fail : ℕ
  defect_percentages : List ℚ
  defect_classes : List (String × ℕ)
  deriving DecidableEq

/-- Bump a histogram entry, inserting it (at the end, matching dict insertion
order) when the key is new. -/
def bumpCount : List (String × ℕ) → String → List (String × ℕ)
  | [], k => [(k, 1)]
  | (k0, c) :: rest, k =>
    if k0 = k then (k0, c + 1) :: rest else (k0, c) :: bumpCount rest k

/-- Update the entry of `k` in an insertion-ordered association list, creating
it from `dflt` first when absent (a Python `defaultdict` access). -/
def updAssoc {β : Type} (dflt : β) (f : β → β) :
    List (String × β) → String → List (String × β)
  | [], k => [(k, f dflt)]
  | (k0, v) :: rest, k =>
    if k0 = k then (k0, f v) :: rest else (k0, v) :: updAssoc dflt f rest k

/-- The loop body of `get_machine_statistics` (lines 188-204) applied to the
accumulator entry of one record's machine key. -/
def DataAggregator.machineUpd (r : WaferRecord) (st : MachineAcc) : MachineAcc :=
  { total := st.total + 1
    pass := if r.quality_status == some "PASS" then st.pass + 1 else st.pass
    fail := if r.quality_status == some "PASS" then st.fail else st.fail + 1
    defect_percentages :=
      match r.pct with
      | some v => st.defect_percentages ++ [v]
      | none => st.defect_percentages
    defect_classes := bumpCount st.defect_classes r.defectClassOf }

/-- Initial `defaultdict` value for a machine entry. -/
def DataAggregator.machineDflt : MachineAcc :=
  { total := 0, pass := 0, fail := 0, defect_percentages := [], defect_classes := [] }

/-- One formatted entry of the `get_machine_statistics` result (the
`machine_id` field of the Python dict repeats the key and is not duplicated
here). -/
structure MachineStats where
  total_wafers : ℕ
  pass_count : ℕ
  fail_count : ℕ
  pass_rate : ℚ
  average_defect_percentage : ℚ
  defect_class_distribution : List (String × ℕ)
  deriving DecidableEq

/-- The formatting step of `get_machine_statistics` (lines 207-218). -/
def DataAggregator.formatMachine (st : MachineAcc) : MachineStats :=
  { total_wafers := st.total
    pass_count := st.pass
    fail_count := st.fail
    pass_rate := if 0 < st.total then roundTo 2 ((st.pass : ℚ) / st.total * 100) else 0
    average_defect_percentage :=
      if st.defect_percentages = [] then 0
      else roundTo 2 (st.defect_percentages.sum / st.defect_percentages.length)
    defect_class_distribution := st.defect_classes }

/-- `DataAggregator.get_machine_statistics` (lines 170-220): group the records
by machine key in first-appearance order, then format each group. -/
def DataAggregator.get_machine_statistics (data : List WaferRecord) :
    List (String × MachineStats) :=
  if data = [] then []
  else
    (data.foldl
        (fun acc r => updAssoc DataAggregator.machineDflt (DataAggregator.machineUpd r)
          acc (DataAggregator.machineKey r)) []).map
      fun kv => (kv.1, DataAggregator.formatMachine kv.2)

/-- The result of `get_defect_distribution`: class histogram plus rounded
percentages (empty maps when no data is loaded). -/
structure DefectDistribution where
  counts : List (String × ℕ)
  percentages : List (String × ℚ)
  deriving DecidableEq

/-- `DataAggregator.get_defect_distribution` (lines 222-246). -/
def DataAggregator.get_defect_distribution (data : List WaferRecord) :
    DefectDistribution :=
  if data = [] then { counts := [], percentages := [] }
  else
    let defect_counts := data.foldl (fun acc r => bumpCount acc r.defectClassOf) []
    let total := (defect_counts.map Prod.snd).sum
    { counts := defect_counts
      percentages :=
        if 0 < total then
          defect_counts.map fun kv => (kv.1, roundTo 2 ((kv.2 : ℚ) / total * 100))
        else [] }

/-- The raw per-date accumulator of `get_date_statistics`. -/
structure DateAcc where
  total_wafers : ℕ
  pass_count : ℕ
  fail_count : ℕ
  defect_percentages : List ℚ
  anomalies : ℕ
  deriving DecidableEq

/-- Initial `defaultdict` value for a date entry. -/
def DataAggregator.dateDflt : DateAcc :=
  { total_wafers := 0, pass_count := 0, fail_count := 0,
    defect_percentages := [], anomalies := 0 }

/-- The loop body of `get_date_statistics` (lines 356-372) on one record.
Records with a missing, null or empty `simulation_date` are skipped
(`if not sim_date: continue`).  `defect_pct = r.get('defect_percentage', 0)`
is appended only under an is-not-None guard, but the following anomaly
comparison `defect_pct > DEFECT_PERCENTAGE_THRESHOLD` is unguarded, so an
explicit null raises `TypeError` (the counter updates made before the raise
die with the call, which the error branch models by discarding them). -/
def DataAggregator.dateStep (acc : List (String × DateAcc)) (r : WaferRecord) :
    Except String (List (String × DateAcc)) :=
  match r.simulation_date with
  | none => .ok acc
  | some sim_date =>
    if sim_date = "" then .ok acc
    else
      match r.pctD0 with
      | none => .error "TypeError: comparison of NoneType and float"
      | some defect_pct =>
        .ok (updAssoc DataAggregator.dateDflt
          (fun st =>
            { total_wafers := st.total_wafers + 1
              pass_count := if r.quality_status == some "PASS" then st.pass_count + 1
                            else st.pass_count
              fail_count := if r.quality_status == some "PASS" then st.fail_count
                            else st.fail_count + 1
              defect_percentages := st.defect_percentages ++ [defect_pct]
              anomalies := if DEFECT_PERCENTAGE_THRESHOLD < defect_pct then
                             st.anomalies + 1
                           else st.anomalies })
          acc sim_date)

/-- The record loop of `get_date_statistics`, propagating a raised
`TypeError`. -/
def DataAggregator.dateFold :
    List WaferRecord → List (String × DateAcc) → Except String (List (String × DateAcc))
  | [], acc => .ok acc
  | r :: rs, acc =>
    match DataAggregator.dateStep acc r with
    | .error e => .error e
    | .ok acc2 => DataAggregator.dateFold rs acc2

/-- One formatted entry of the `get_date_statistics` result. -/
structure DateStats where
  total_wafers : ℕ
  pass_count : ℕ
  fail_count : ℕ
  pass_rate : ℚ
  avg_defect_percentage : ℚ
  anomalies : ℕ
  deriving DecidableEq

/-- The formatting step of `get_date_statistics` (lines 374-387). -/
def DataAggregator.formatDate (st : DateAcc) : DateStats :=
  { total_wafers := st.total_wafers
    pass_count := st.pass_count
    fail_count := st.fail_count
    pass_rate := if 0 < st.total_wafers then
                   roundTo 2 ((st.pass_count : ℚ) / st.total_wafers * 100)
                 else 0
    avg_defect_percentage := roundTo 2 (listMean st.defect_percentages)
    anomalies := st.anomalies }

/-- `DataAggregator.get_date_statistics` (lines 336-389). -/
def DataAggregator.get_date_statistics (data : List WaferRecord) :
    Except String (List (String × DateStats)) :=
  if data = [] then .ok []
  else
    match DataAggregator.dateFold data [] with
    | .error e => .error e
    | .ok date_stats => .ok (date_stats.map fun kv => (kv.1, DataAggregator.formatDate kv.2))

/-!
## `DataAggregator.load_results`

The file system is externalised: each snapshot file found by the directory
scan (or the single explicit file) is given as its parse outcome, in the order
the Python code iterates them (most recently modified first).
-/

/-- The parse outcome of one results JSON file. -/
inductive SnapshotFile where
  /-- `open` or `json.load` raised; the file is skipped with a logged error. -/
  | malformed
  /-- The file held a single JSON object (appended as one record). -/
  | single (r : WaferRecord)
  /-- The file held a JSON array (its records are extended in order). -/
  | array (rs : List WaferRecord)
  deriving DecidableEq

/-- What one loop iteration of `load_results` contributes to `all_results`. -/
def SnapshotFile.parsed : SnapshotFile → List WaferRecord
  | .malformed => []
  | .single r => [r]
  | .array rs => rs

/-- The in-memory state of a `DataAggregator` (its `self.data`). -/
structure AggregatorState where
  data : List WaferRecord
  deriving DecidableEq

/-- `DataAggregator.load_results` (lines 31-74): rebuild `all_results` from
the files and assign it to `self.data`, replacing (not merging) the previous
in-memory copy `prior`. -/
def DataAggregator.load_results (files : List SnapshotFile)
    (prior : AggregatorState) : AggregatorState :=
  let all_results := files.foldl (fun acc f => acc ++ f.parsed) []
  { prior with data := all_results }

/-!
## Interleaving model of `run_simulation` worker threads

`run_simulation` (lines 425-503) starts one `machine_worker` thread per
machine.  Each worker loops: take the lock and check
`len(self.results) >= max_wafers` (breaking out when it holds), then — outside
the lock — call `process_wafer` and `process_wafer_with_analysis`, then call
`save_result`, which appends to `self.results` under the same lock.  The model
below keeps exactly this structure: the cap check and the append are separate
atomic actions with an unlocked gap between them.  Wall-clock expiry, the
random sleeps and the `is_running` flag are abstracted into nondeterministic
scheduling; a worker halts only by observing the cap, which matches the C8
scenario of a run that ends because the wafer cap is reached before the
duration elapses.  `skip` models a `process_wafer` call that returned `None`.
-/

/-- Where one worker thread is in its `machine_worker` loop. -/
inductive WorkerPhase where
  /-- At the top of the loop, about to take the lock for the cap check. -/
  | top
  /-- Past the cap check with the lock released: producing and analysing a
  wafer that has not been saved yet (the in-flight window). -/
  | inflight
  /-- Broke out of the loop after observing the stop condition. -/
  | halted
  deriving DecidableEq

/-- Global state of a run: the length of the shared `self.results` list and
the phase of each of the `n` workers. -/
structure SimState (n : ℕ) where
  resultCount : ℕ
  phase : Fin n → WorkerPhase

/-- One atomic action of some worker, for a run with wafer cap `cap`. -/
inductive SimStep (cap : ℕ) {n : ℕ} : SimState n → SimState n → Prop where
  /-- The cap check finds `len(results) >= max_wafers`: the worker breaks. -/
  | observe_stop (s : SimState n) (i : Fin n) (hp : s.phase i = .top)
      (hc : cap ≤ s.resultCount) :
      SimStep cap s { s with phase := Function.update s.phase i .halted }
  /-- The cap check passes (`len(results) < max_wafers`): the worker releases
  the lock and starts producing a wafer. -/
  | begin_wafer (s : SimState n) (i : Fin n) (hp : s.phase i = .top)
      (hc : s.resultCount < cap) :
      SimStep cap s { s with phase := Function.update s.phase i .inflight }
  /-- `save_result` appends the in-flight record under the lock. -/
  | save (s : SimState n) (i : Fin n) (hp : s.phase i = .inflight) :
      SimStep cap
        s { resultCount := s.resultCount + 1, phase := Function.update s.phase i .top }
  /-- `process_wafer` returned `None`: nothing is saved this iteration. -/
  | skip (s : SimState n) (i : Fin n) (hp : s.phase i = .inflight) :
      SimStep cap s { s with phase := Function.update s.phase i .top }

/-- The initial state of `run_simulation`: no results, every worker at its
loop head. -/
def SimState.init (n : ℕ) : SimState n := { resultCount := 0, phase := fun _ => .top }

/-- States reachable during a run. -/
def SimReachable (cap n : ℕ) (s : SimState n) : Prop :=
  Relation.ReflTransGen (SimStep cap) (SimState.init n) s

/-- A completed run: every worker has broken out of its loop. -/
def SimFinal {n : ℕ} (s : SimState n) : Prop := ∀ i, s.phase i = .halted

/-- The number of workers currently in their in-flight window, as a function
of the phase assignment. -/
def inflightCount {n : ℕ} (f : Fin n → WorkerPhase) : ℕ :=
  (Finset.univ.filter fun i => f i = .inflight).card

/-- C1: every record built by `process_wafer_with_analysis` has
`quality_status = "PASS"` iff its stored `defect_percentage` is `≤ 40`, and
the stored `defect_percentage` equals the percentage the decision was made on
(the `.get("defect_percentage", 0.0)` value), so status and stored percentage
are never inconsistent. -/
theorem C1_quality_status_consistent (defect_count_pct : Option ℚ) :
    ((ManufacturingProcessController.process_wafer_with_analysis defect_count_pct).quality_status
        = "PASS"
      ↔ (ManufacturingProcessController.process_wafer_with_analysis defect_count_pct).defect_percentage
        ≤ 40)
    ∧ (ManufacturingProcessController.process_wafer_with_analysis defect_count_pct).defect_percentage
        = defect_count_pct.getD 0 := by
  refine ⟨?_, rfl⟩
  unfold ManufacturingProcessController.process_wafer_with_analysis
    ManufacturingProcessController.defect_threshold
  by_cases h : defect_count_pct.getD 0 ≤ (40 : ℚ)
  · simp [h]
  · simp [h]

/-- C9: if a machine is not running, `process_wafer` returns `None` and leaves
the state (in particular `wafer_counter` and `processed_wafers`) unchanged; if
it is running but image generation fails, it returns `None` with
`wafer_counter` incremented and `processed_wafers` unchanged; if it is running
and image generation succeeds, both counters advance and a record is emitted —
so emitted wafer ids can skip numbers and `processed_wafers` counts only
emitted records. -/
theorem C9_process_wafer_frame (m : MachineState) (img : Option String) :
    (m.is_running = false → ManufacturingMachine.process_wafer m img = (m, none))
    ∧ (m.is_running = true → img = none →
        ManufacturingMachine.process_wafer m img
          = ({ m with wafer_counter := m.wafer_counter + 1 }, none))
    ∧ (m.is_running = true → ∀ p, img = some p →
        ((ManufacturingMachine.process_wafer m img).1.wafer_counter = m.wafer_counter + 1
          ∧ (ManufacturingMachine.process_wafer m img).1.processed_wafers
              = m.processed_wafers + 1
          ∧ (ManufacturingMachine.process_wafer m img).2.isSome = true)) := by
  refine ⟨fun hstop => ?_, fun hrun himg => ?_, fun hrun p himg => ?_⟩
  · simp [ManufacturingMachine.process_wafer, hstop]
  · simp [ManufacturingMachine.process_wafer, hrun, himg]
  · subst himg
    simp [ManufacturingMachine.process_wafer, hrun]

/-- Witness for C9 at a concrete stopped machine and a concrete running
machine whose image generation fails. -/
theorem C9_process_wafer_frame_witness :
    (ManufacturingMachine.process_wafer
        { machine_id := "MECH_01", machine_type := "Mechanical",
          is_running := false, processed_wafers := 3, wafer_counter := 5 } none
      = ({ machine_id := "MECH_01", machine_type := "Mechanical",
           is_running := false, processed_wafers := 3, wafer_counter := 5 }, none))
    ∧ (ManufacturingMachine.process_wafer
        { machine_id := "MECH_01", machine_type := "Mechanical",
          is_running := true, processed_wafers := 3, wafer_counter := 5 } none
      = ({ machine_id := "MECH_01", machine_type := "Mechanical",
           is_running := true, processed_wafers := 3, wafer_counter := 6 }, none)) :=
  ⟨(C9_process_wafer_frame _ none).1 rfl,
   ((C9_process_wafer_frame _ none).2.1 rfl rfl)⟩

/-!
## Shared helper lemmas and sample records
-/

/-- Concrete passing record used to instantiate witnesses. -/
def sampleRecPass : WaferRecord :=
  { machine_id := some "MECH_01", machine_type := some "Mechanical",
    simulation_date := some "2025-01-01", quality_status := some "PASS",
    defect_percentage := some (some 10),
    prediction := some { defectClass := some "Normal",
                         confidenceScore := some (some (9 / 10)) } }

/-- Concrete failing record used to instantiate witnesses. -/
def sampleRecFail : WaferRecord :=
  { machine_id := some "ELEC_01", machine_type := some "Electrical",
    simulation_date := some "2025-01-01", quality_status := some "FAIL",
    defect_percentage := some (some 55),
    prediction := some { defectClass := some "Scratch",
                         confidenceScore := some (some (4 / 5)) } }

/-- A record whose `defect_percentage` key is present but explicitly null. -/
def sampleRecNull : WaferRecord :=
  { machine_id := none, machine_type := none,
    simulation_date := some "2025-01-02", quality_status := none,
    defect_percentage := some none, prediction := none }

/-- A record with every optional key absent. -/
def sampleRecBare : WaferRecord :=
  { machine_id := none, machine_type := none, simulation_date := none,
    quality_status := none, defect_percentage := none, prediction := none }

/-- The summary returned on nonempty data, written out explicitly. -/
theorem DataAggregator.get_summary_statistics_of_ne_nil
    {data : List WaferRecord} (h : data ≠ []) :
    DataAggregator.get_summary_statistics data
      = .ok { total_wafers := data.length
              pass_count := data.countP fun r => r.quality_status == some "PASS"
              fail_count := data.length
                - data.countP fun r => r.quality_status == some "PASS"
              pass_rate := if 0 < data.length then
                  ((data.countP fun r => r.quality_status == some "PASS" : ℕ) : ℚ)
                    / data.length * 100
                else 0
              fail_rate := if 0 < data.length then
                  (((data.length
                      - data.countP fun r => r.quality_status == some "PASS" : ℕ)) : ℚ)
                    / data.length * 100
                else 0
              average_defect_percentage :=
                roundTo 2 (listMean (DataAggregator.summaryDefectPercentages data))
              average_confidence :=
                roundTo 4 (listMean (DataAggregator.summaryConfidences data)) } := by
  simp only [DataAggregator.get_summary_statistics, if_neg h]

/-- C6: `load_results` is idempotent and state-independent: a second call over
the same snapshot files leaves the aggregator with the same in-memory data as
the first (each call replaces, never merges, the prior copy), so every

subsequent statistics query gives the same answers after either call. -/
theorem C6_load_results_idempotent (files : List SnapshotFile) (s : AggregatorState) :
    (DataAggregator.load_results files (DataAggregator.load_results files s)
        = DataAggregator.load_results files s)
    ∧ (∀ prior : AggregatorState,
        (DataAggregator.load_results files prior).data
          = (DataAggregator.load_results files s).data)
    ∧ (DataAggregator.get_summary_statistics
          (DataAggregator.load_results files (DataAggregator.load_results files s)).data
        = DataAggregator.get_summary_statistics
            (DataAggregator.load_results files s).data)
    ∧ (∀ t : ℚ, DataAggregator.get_anomalies
          (DataAggregator.load_results files (DataAggregator.load_results files s)).data t
        = DataAggregator.get_anomalies
            (DataAggregator.load_results files s).data t)
    ∧ (DataAggregator.get_machine_statistics
          (DataAggregator.load_results files (DataAggregator.load_results files s)).data
        = DataAggregator.get_machine_statistics
            (DataAggregator.load_results files s).data) :=
  ⟨rfl, fun _ => rfl, rfl, fun _ => rfl, rfl⟩

/-- C3: on any nonempty data set the summary has `total_wafers` equal to the
number of records, `pass_count + fail_count` equal to that number, rates
computed as `count / total * 100`, the defect mean rounded to 2 decimals and
the confidence mean to 4; on empty data it is the explicit error marker. -/
theorem C3_summary_statistics (data : List WaferRecord) (h : data ≠ []) :
    (∃ s, DataAggregator.get_summary_statistics data = .ok s
      ∧ s.total_wafers = data.length
      ∧ s.pass_count + s.fail_count = data.length
      ∧ s.pass_rate = (s.pass_count : ℚ) / s.total_wafers * 100
      ∧ s.fail_rate = (s.fail_count : ℚ) / s.total_wafers * 100
      ∧ s.average_defect_percentage
          = roundTo 2 (listMean (DataAggregator.summaryDefectPercentages data))
      ∧ s.average_confidence
          = roundTo 4 (listMean (DataAggregator.summaryConfidences data)))
    ∧ DataAggregator.get_summary_statistics [] = .error "No data loaded" := by
  have hlen : 0 < data.length := List.length_pos.mpr h
  have hcount : (data.countP fun r => r.quality_status == some "PASS") ≤ data.length :=
    List.countP_le_length _
  refine ⟨⟨_, DataAggregator.get_summary_statistics_of_ne_nil h, rfl, ?_, ?_, ?_, rfl, rfl⟩, rfl⟩
  · simp only
    omega
  · simp only [if_pos hlen]
  · simp only [if_pos hlen]

/-- Witness for C3 at a concrete two-record data set. -/
theorem C3_summary_statistics_witness :
    ∃ s, DataAggregator.get_summary_statistics [sampleRecPass, sampleRecFail] = .ok s
      ∧ s.total_wafers = 2 ∧ s.pass_count + s.fail_count = 2 := by
  obtain ⟨⟨s, hok, htot, hsum, _⟩, -⟩ :=
    C3_summary_statistics [sampleRecPass, sampleRecFail] (List.cons_ne_nil _ _)
  exact ⟨s, hok, htot, hsum⟩

/-- Bridge between propositional equality decided and boolean equality. -/
theorem decide_eq_beq {α : Type} [DecidableEq α] [BEq α] [LawfulBEq α] (a b : α) :
    decide (a = b) = (a == b) := by
  cases h : a == b
  · have hne : ¬ a = b := by intro he; subst he; simp at h
    simp [hne]
  · have he : a = b := by rwa [beq_iff_eq] at h
    simp [he]

/-- Membership in an `updAssoc` result comes from the fresh default entry, an
updated old entry, or an untouched old entry. -/
theorem mem_updAssoc {β : Type} {dflt : β} {f : β → β} :
    ∀ {acc : List (String × β)} {k : String} {kv : String × β},
      kv ∈ updAssoc dflt f acc k →
        kv.2 = f dflt ∨ (∃ kv0 ∈ acc, kv.2 = f kv0.2) ∨ kv ∈ acc := by
  intro acc
  induction acc with
  | nil =>
    intro k kv hkv
    simp only [updAssoc, List.mem_singleton] at hkv
    subst hkv
    exact Or.inl rfl
  | cons hd tl ih =>
    intro k kv hkv
    simp only [updAssoc] at hkv
    by_cases hk : hd.1 = k
    · rw [if_pos hk] at hkv
      rcases List.mem_cons.mp hkv with h | h
      · exact Or.inr (Or.inl ⟨hd, List.mem_cons_self _ _, by rw [h]⟩)
      · exact Or.inr (Or.inr (List.mem_cons_of_mem _ h))
    · rw [if_neg hk] at hkv
      rcases List.mem_cons.mp hkv with h | h
      · exact Or.inr (Or.inr (by rw [h]; exact List.mem_cons_self _ _))
      · rcases ih h with h1 | ⟨kv0, hkv0, he⟩ | h3
        · exact Or.inl h1
        · exact Or.inr (Or.inl ⟨kv0, List.mem_cons_of_mem _ hkv0, he⟩)
        · exact Or.inr (Or.inr (List.mem_cons_of_mem _ h3))

/-- Any property of the accumulator values preserved by the update and
established on the fresh default entry holds for all groups of the
`get_machine_statistics` fold. -/
theorem machine_fold_invariant (P : MachineAcc → Prop)
    (hdflt : ∀ r : WaferRecord, P (DataAggregator.machineUpd r DataAggregator.machineDflt))
    (hupd : ∀ (r : WaferRecord) (st : MachineAcc), P st → P (DataAggregator.machineUpd r st)) :
    ∀ (data : List WaferRecord) (acc : List (String × MachineAcc)),
      (∀ kv ∈ acc, P kv.2) →
      ∀ kv ∈ data.foldl
          (fun acc r => updAssoc DataAggregator.machineDflt (DataAggregator.machineUpd r)
            acc (DataAggregator.machineKey r)) acc,
        P kv.2 := by
  intro data
  induction data with
  | nil => intro acc hacc kv hkv; exact hacc kv hkv
  | cons r rs ih =>
    intro acc hacc kv hkv
    refine ih _ ?_ kv hkv
    intro kv2 hkv2
    rcases mem_updAssoc hkv2 with h1 | ⟨kv0, hkv0, he⟩ | h3
    · rw [h1]; exact hdflt r
    · rw [he]; exact hupd r _ (hacc kv0 hkv0)
    · exact hacc kv2 h3

/-- C10: a record whose `quality_status` is missing, null, or any string
other than exactly `"PASS"` is counted as a FAIL: in the summary the fail
count is exactly the number of non-`"PASS"` records and
`pass_count + fail_count` equals the total, and in every group of the
machine statistics `pass_count + fail_count` equals the group total, so no
record is counted as neither PASS nor FAIL. -/
theorem C10_fail_complement (data : List WaferRecord) (h : data ≠ []) :
    (∃ s, DataAggregator.get_summary_statistics data = .ok s
      ∧ s.pass_count = data.countP (fun r => r.quality_status == some "PASS")
      ∧ s.fail_count = data.countP (fun r => !(r.quality_status == some "PASS"))
      ∧ s.pass_count + s.fail_count = s.total_wafers)
    ∧ ∀ kv ∈ DataAggregator.get_machine_statistics data,
        kv.2.pass_count + kv.2.fail_count = kv.2.total_wafers := by
  constructor
  · have hsplit : data.countP (fun r => r.quality_status == some "PASS")
          + data.countP (fun r => !(r.quality_status == some "PASS")) = data.length := by
      have h0 :=
        (List.length_eq_countP_add_countP (fun r => r.quality_status == some "PASS") data).symm
      simpa [decide_eq_beq] using h0
    refine ⟨_, DataAggregator.get_summary_statistics_of_ne_nil h, rfl, ?_, ?_⟩
    · simp only
      omega
    · have hcount : (data.countP fun r => r.quality_status == some "PASS") ≤ data.length :=
        List.countP_le_length _
      simp only
      omega
  · intro kv hkv
    unfold DataAggregator.get_machine_statistics at hkv
    by_cases hd : data = []
    · rw [if_pos hd] at hkv
      simp at hkv
    · rw [if_neg hd] at hkv
      rcases List.mem_map.mp hkv with ⟨kv0, hkv0, he⟩
      have hP := machine_fold_invariant (fun st => st.pass + st.fail = st.total)
        (fun r => by
          unfold DataAggregator.machineUpd DataAggregator.machineDflt
          by_cases hq : (r.quality_status == some "PASS") = true <;> simp [hq])
        (fun r st hst => by
          unfold DataAggregator.machineUpd
          by_cases hq : (r.quality_status == some "PASS") = true <;> simp [hq] <;> omega)
        data [] (by intro kv hkv; simp at hkv) kv0 hkv0
      rw [← he]
      simpa [DataAggregator.formatMachine] using hP

/-- Witness for C10 over a data set with a PASS record, a record whose
status string is missing, and a FAIL record. -/
theorem C10_fail_complement_witness :
    ∃ s, DataAggregator.get_summary_statistics [sampleRecPass, sampleRecBare, sampleRecFail]
        = .ok s
      ∧ s.pass_count = 1 ∧ s.fail_count = 2 := by
  obtain ⟨⟨s, hok, hpass, hfail, -⟩, -⟩ :=
    C10_fail_complement [sampleRecPass, sampleRecBare, sampleRecFail] (List.cons_ne_nil _ _)
  refine ⟨s, hok, ?_, ?_⟩
  · rw [hpass]; rfl
  · rw [hfail]; rfl

/-- C4 counterexample: on an empty data set (where the date matches no
records) `get_daily_statistics` returns the marker
`{"error": "No data found for date 2025-01-01"}` while recomputing
`get_summary_statistics` over the (empty) filtered subset returns the
different marker `{"error": "No data loaded"}`, so the two results are not
equal in the no-match case. -/
theorem C4_counterexample :
    DataAggregator.get_daily_statistics [] "2025-01-01"
      ≠ DataAggregator.get_summary_statistics
          (DataAggregator.filter_by_simulation_date [] "2025-01-01") := by
  intro hcontr
  have h1 : DataAggregator.get_daily_statistics [] "2025-01-01"
      = .error "No data found for date 2025-01-01" := rfl
  have h2 : DataAggregator.get_summary_statistics
      (DataAggregator.filter_by_simulation_date [] "2025-01-01")
      = .error "No data loaded" := rfl
  rw [h1, h2] at hcontr
  have : "No data found for date 2025-01-01" = "No data loaded" :=
    Except.error.inj hcontr
  exact absurd this (by decide)

/-- C4 amended: `filter_by_simulation_date` is an exact string match on
`simulation_date` (returning `[]` on empty data or no match, never raising,
which its plain-function type shows), and whenever at least one record
matches the date, `get_daily_statistics` equals `get_summary_statistics`
recomputed over exactly the filtered records.  When nothing matches, both
sides are error markers, but with different messages, so they are not
equal. -/
theorem C4_daily_eq_summary_of_match (data : List WaferRecord) (d : String) :
    (DataAggregator.filter_by_simulation_date data d
        = data.filter fun r => r.simulation_date == some d)
    ∧ (DataAggregator.filter_by_simulation_date data d ≠ [] →
        DataAggregator.get_daily_statistics data d
          = DataAggregator.get_summary_statistics
              (DataAggregator.filter_by_simulation_date data d))
    ∧ (DataAggregator.filter_by_simulation_date data d = [] →
        DataAggregator.get_daily_statistics data d
            = .error ("No data found for date " ++ d)
          ∧ (DataAggregator.get_summary_statistics
              (DataAggregator.filter_by_simulation_date data d)).isOk = false) := by
  refine ⟨?_, ?_, ?_⟩
  · by_cases hd : data = []
    · subst hd; rfl
    · simp only [DataAggregator.filter_by_simulation_date, if_neg hd]
  · intro hne
    simp only [DataAggregator.get_daily_statistics, if_neg hne]
  · intro hnil
    constructor
    · simp only [DataAggregator.get_daily_statistics, if_pos hnil]
    · rw [hnil]
      rfl

/-- Witness for C4 amended at a data set with one matching record. -/
theorem C4_daily_eq_summary_of_match_witness :
    DataAggregator.get_daily_statistics [sampleRecPass, sampleRecNull] "2025-01-01"
      = DataAggregator.get_summary_statistics
          (DataAggregator.filter_by_simulation_date [sampleRecPass, sampleRecNull]
            "2025-01-01") :=
  (C4_daily_eq_summary_of_match [sampleRecPass, sampleRecNull] "2025-01-01").2.1
    (by intro hcontr; exact absurd hcontr (by decide))

/-- On data without an explicitly-null `defect_percentage`, the anomaly
collection loop completes and returns exactly the records whose effective
percentage (`.get("defect_percentage", 0)`) strictly exceeds the threshold,
in their original order. -/
theorem DataAggregator.collectAnomalies_eq_filter (t : ℚ) :
    ∀ data : List WaferRecord, (∀ r ∈ data, r.pctD0 ≠ none) →
      DataAggregator.collectAnomalies t data
        = .ok (data.filter fun r => decide (t < DataAggregator.anomalyKey r)) := by
  intro data
  induction data with
  | nil => intro _; rfl
  | cons r rs ih =>
    intro hnull
    have hr : r.pctD0 ≠ none := hnull r (List.mem_cons_self _ _)
    obtain ⟨v, hv⟩ := Option.ne_none_iff_exists'.mp hr
    have hkey : DataAggregator.anomalyKey r = v := by
      unfold DataAggregator.anomalyKey
      rw [hv]
      rfl
    have ihs := ih fun x hx => hnull x (List.mem_cons_of_mem _ hx)
    simp only [DataAggregator.collectAnomalies, hv, ihs]
    by_cases hlt : t < v
    · simp [List.filter_cons, hkey, hlt]
    · simp [List.filter_cons, hkey, hlt]

/-- On data without an explicitly-null `defect_percentage`, the
`get_date_statistics` record loop never raises. -/
theorem DataAggregator.dateFold_isOk :
    ∀ data : List WaferRecord, (∀ r ∈ data, r.pctD0 ≠ none) →
      ∀ acc, ∃ acc2, DataAggregator.dateFold data acc = .ok acc2 := by
  intro data
  induction data with
  | nil => intro _ acc; exact ⟨acc, rfl⟩
  | cons r rs ih =>
    intro hnull acc
    have hr : r.pctD0 ≠ none := hnull r (List.mem_cons_self _ _)
    have hstepOk : (DataAggregator.dateStep acc r).isOk = true := by
      unfold DataAggregator.dateStep
      cases hs : r.simulation_date with
      | none => rfl
      | some d =>
        by_cases hd : d = ""
        · simp only [hd, if_pos]
          rfl
        · obtain ⟨v, hv⟩ := Option.ne_none_iff_exists'.mp hr
          simp only [hv, if_neg hd]
          rfl
    have hstep : ∃ acc1, DataAggregator.dateStep acc r = .ok acc1 := by
      cases hx : DataAggregator.dateStep acc r with
      | error e => rw [hx] at hstepOk; exact absurd hstepOk (by simp [Except.isOk, Except.toBool])
      | ok a => exact ⟨a, rfl⟩
    obtain ⟨acc1, hacc1⟩ := hstep
    obtain ⟨acc2, hacc2⟩ := ih (fun x hx => hnull x (List.mem_cons_of_mem _ hx)) acc1
    refine ⟨acc2, ?_⟩
    unfold DataAggregator.dateFold
    rw [hacc1]
    exact hacc2

/-- The defect-percentage list used by the summary mean is exactly the
present, non-null `defect_percentage` values, so a record lacking the field
contributes to no percentage mean. -/
theorem DataAggregator.summaryDefectPercentages_eq_filterMap (data : List WaferRecord) :
    DataAggregator.summaryDefectPercentages data = data.filterMap fun r => r.pct := by
  induction data with
  | nil => rfl
  | cons r rs ih =>
    unfold DataAggregator.summaryDefectPercentages at *
    rcases hd : r.defect_percentage with _ | pn
    · have hp : r.pct = none := by simp [WaferRecord.pct, pyGet, hd]
      simp [List.filter_cons, List.filterMap_cons, hp, ih]
    · rcases pn with _ | v
      · have hp : r.pct = none := by simp [WaferRecord.pct, pyGet, hd]
        simp [List.filter_cons, List.filterMap_cons, hp, ih]
      · have hp : r.pct = some v := by simp [WaferRecord.pct, pyGet, hd]
        have hp0 : r.pctD0 = some v := by simp [WaferRecord.pctD0, pyGetD0, hd]
        simp [List.filter_cons, List.filterMap_cons, hp, hp0, ih]

/-- C2 counterexample: on a record whose `defect_percentage` key holds an
explicit null, `get_anomalies` does not return normally — the comparison
`None > threshold` raises `TypeError` — contradicting the claim that no
aggregation function raises on malformed records. -/
theorem C2_counterexample :
    DataAggregator.get_anomalies [sampleRecNull] 50
      = .error "TypeError: comparison of NoneType and float" := rfl

/-- C2 amended: `get_summary_statistics` and `get_machine_statistics` never
raise (they are total functions here, guarding null percentages with
is-not-None checks), and `get_anomalies` and `get_date_statistics` return
normally provided no record carries an explicitly-null `defect_percentage`
value (an absent key is handled, defaulting to 0, but an explicit null makes
both raise `TypeError`); a record with no `defect_percentage` is excluded
from the percentage mean while still being counted in `total_wafers`. -/
theorem C2_no_raise_amended (data : List WaferRecord) (t : ℚ) :
    ((∀ r ∈ data, r.pctD0 ≠ none) →
        (DataAggregator.get_anomalies data t).isOk = true
      ∧ (DataAggregator.get_date_statistics data).isOk = true)
    ∧ DataAggregator.summaryDefectPercentages data = data.filterMap (fun r => r.pct)
    ∧ (data ≠ [] →
        ∃ s, DataAggregator.get_summary_statistics data = .ok s
          ∧ s.total_wafers = data.length) := by
  refine ⟨fun hnull => ⟨?_, ?_⟩,
    DataAggregator.summaryDefectPercentages_eq_filterMap data,
    fun h => ⟨_, DataAggregator.get_summary_statistics_of_ne_nil h, rfl⟩⟩
  · unfold DataAggregator.get_anomalies
    by_cases hd : data = []
    · rw [if_pos hd]
      rfl
    · rw [if_neg hd, DataAggregator.collectAnomalies_eq_filter t data hnull]
      rfl
  · unfold DataAggregator.get_date_statistics
    by_cases hd : data = []
    · rw [if_pos hd]
      rfl
    · rw [if_neg hd]
      obtain ⟨acc2, hacc2⟩ := DataAggregator.dateFold_isOk data hnull []
      rw [hacc2]
      rfl

/-- Witness for C2 amended on a two-record data set where one record has no
`defect_percentage` key at all. -/
theorem C2_no_raise_amended_witness :
    (DataAggregator.get_anomalies [sampleRecPass, sampleRecBare] 30).isOk = true
    ∧ (DataAggregator.get_date_statistics [sampleRecPass, sampleRecBare]).isOk = true
    ∧ ∃ s, DataAggregator.get_summary_statistics [sampleRecPass, sampleRecBare] = .ok s
        ∧ s.total_wafers = 2 := by
  have h := C2_no_raise_amended [sampleRecPass, sampleRecBare] 30
  have hok := h.1 (by decide)
  obtain ⟨s, hs, ht⟩ := h.2.2 (List.cons_ne_nil _ _)
  refine ⟨hok.1, hok.2, s, hs, ?_⟩
  rw [ht]
  rfl

/-- C5: on data whose `defect_percentage` values are numbers (no explicit
null, which would raise and is settled under the error-handling claim),
`get_anomalies t` returns exactly the records whose effective defect
percentage strictly exceeds `t`, as the stable merge sort of the
order-preserving filter, descending by percentage; every returned record
comes from the data and exceeds `t`, the returned list is a permutation of
the filtered records and is pairwise descending; and on data whose
percentages are all `≤ 95`, `get_anomalies 100` returns `[]`. -/
theorem C5_anomalies_sorted (data : List WaferRecord) (t : ℚ)
    (hnull : ∀ r ∈ data, r.pctD0 ≠ none) :
    (DataAggregator.get_anomalies data t
        = .ok ((data.filter fun r => decide (t < DataAggregator.anomalyKey r)).mergeSort
            fun a b => decide (DataAggregator.anomalyKey b ≤ DataAggregator.anomalyKey a)))
    ∧ (∀ l, DataAggregator.get_anomalies data t = .ok l →
        l.Perm (data.filter fun r => decide (t < DataAggregator.anomalyKey r))
          ∧ l.Pairwise (fun a b => DataAggregator.anomalyKey b ≤ DataAggregator.anomalyKey a)
          ∧ ∀ r ∈ l, r ∈ data ∧ t < DataAggregator.anomalyKey r)
    ∧ ((∀ r ∈ data, DataAggregator.anomalyKey r ≤ 95) →
        DataAggregator.get_anomalies data 100 = .ok []) := by
  have hmain : ∀ u : ℚ, DataAggregator.get_anomalies data u
      = .ok ((data.filter fun r => decide (u < DataAggregator.anomalyKey r)).mergeSort
          fun a b => decide (DataAggregator.anomalyKey b ≤ DataAggregator.anomalyKey a)) := by
    intro u
    unfold DataAggregator.get_anomalies
    by_cases hd : data = []
    · subst hd
      rw [if_pos rfl, List.filter_nil, List.mergeSort_nil]
    · rw [if_neg hd, DataAggregator.collectAnomalies_eq_filter u data hnull]
  refine ⟨hmain t, ?_, ?_⟩
  · intro l hl
    rw [hmain t] at hl
    have hleq := Except.ok.inj hl
    subst hleq
    have hperm := List.mergeSort_perm
      (data.filter fun r => decide (t < DataAggregator.anomalyKey r))
      (fun a b => decide (DataAggregator.anomalyKey b ≤ DataAggregator.anomalyKey a))
    refine ⟨hperm, ?_, ?_⟩
    · have hsorted := @List.sorted_mergeSort WaferRecord
        (fun a b => decide (DataAggregator.anomalyKey b ≤ DataAggregator.anomalyKey a))
        (fun a b c h1 h2 =>
          decide_eq_true (le_trans (of_decide_eq_true h2) (of_decide_eq_true h1)))
        (fun a b => by
          rcases le_total (DataAggregator.anomalyKey b) (DataAggregator.anomalyKey a) with h | h
          · simp [h]
          · simp [h])
        (data.filter fun r => decide (t < DataAggregator.anomalyKey r))
      exact hsorted.imp fun h => of_decide_eq_true h
    · intro r hr
      have hrf := (hperm.mem_iff).mp hr
      have hx := List.mem_filter.mp hrf
      exact ⟨hx.1, of_decide_eq_true hx.2⟩
  · intro h95
    rw [hmain 100]
    have hfilter : (data.filter fun r => decide (100 < DataAggregator.anomalyKey r)) = [] := by
      rw [List.filter_eq_nil_iff]
      intro a ha
      have h1 := h95 a ha
      simp only [decide_eq_true_eq]
      intro hcontr
      linarith
    rw [hfilter, List.mergeSort_nil]

/-- Witness for C5 on a two-record data set with one anomaly above
threshold 40. -/
theorem C5_anomalies_sorted_witness :
    ∃ l, DataAggregator.get_anomalies [sampleRecPass, sampleRecFail] 40 = .ok l
      ∧ (∀ r ∈ l, r ∈ [sampleRecPass, sampleRecFail] ∧ 40 < DataAggregator.anomalyKey r)
      ∧ l.Pairwise fun a b => DataAggregator.anomalyKey b ≤ DataAggregator.anomalyKey a := by
  have h := C5_anomalies_sorted [sampleRecPass, sampleRecFail] 40 (by decide)
  obtain ⟨-, hsorted, hmem⟩ := h.2.1 _ h.1
  exact ⟨_, h.1, hmem, hsorted⟩

/-- The executable `Rat.floor` agrees with the floor of the `FloorRing`
instance. -/
theorem ratFloor_eq_floor (q : ℚ) : Rat.floor q = ⌊q⌋ := by
  rw [Rat.floor_def']
  exact Rat.floor_def.symm

/-- Half-up rounding to two decimals moves a rational by at most half an ulp
(`1/200`). -/
theorem abs_roundTo_two_sub (q : ℚ) : |roundTo 2 q - q| ≤ 1 / 200 := by
  unfold roundTo roundHalfUp
  rw [ratFloor_eq_floor]
  have h1 : ((⌊q * 10 ^ 2 + 1 / 2⌋ : ℤ) : ℚ) ≤ q * 10 ^ 2 + 1 / 2 := Int.floor_le _
  have h2 : q * 10 ^ 2 + 1 / 2 < (⌊q * 10 ^ 2 + 1 / 2⌋ : ℤ) + 1 := Int.lt_floor_add_one _
  rw [abs_le]
  constructor
  · rw [div_sub' _ _ _ (by norm_num : ((10 : ℚ) ^ 2) ≠ 0), le_div_iff (by norm_num : (0 : ℚ) < 10 ^ 2)]
    nlinarith
  · rw [div_sub' _ _ _ (by norm_num : ((10 : ℚ) ^ 2) ≠ 0), div_le_iff (by norm_num : (0 : ℚ) < 10 ^ 2)]
    nlinarith

/-- Bumping a histogram entry raises the total count by exactly one. -/
theorem bumpCount_sum (l : List (String × ℕ)) (k : String) :
    ((bumpCount l k).map Prod.snd).sum = (l.map Prod.snd).sum + 1 := by
  induction l with
  | nil => rfl
  | cons hd tl ih =>
    unfold bumpCount
    by_cases hk : hd.1 = k
    · simp [hk]
      omega
    · simp [hk, ih]
      omega

/-- The histogram fold of `get_defect_distribution` counts every record
exactly once. -/
theorem defectCounts_sum (data : List WaferRecord) :
    ∀ acc : List (String × ℕ),
      (((data.foldl (fun acc r => bumpCount acc r.defectClassOf) acc).map Prod.snd).sum)
        = (acc.map Prod.snd).sum + data.length := by
  induction data with
  | nil => intro acc; simp
  | cons r rs ih =>
    intro acc
    simp only [List.foldl_cons, List.length_cons]
    rw [ih (bumpCount acc r.defectClassOf), bumpCount_sum]
    omega

/-- Summing pointwise-close lists keeps the sums within `length * c`. -/
theorem abs_sum_sub_sum_le {α : Type} (l : List α) (f g : α → ℚ) (c : ℚ) (hc : 0 ≤ c)
    (hb : ∀ a ∈ l, |f a - g a| ≤ c) :
    |(l.map f).sum - (l.map g).sum| ≤ l.length * c := by
  induction l with
  | nil => simp
  | cons a tl ih =>
    have hba := hb a (List.mem_cons_self _ _)
    have hbt := ih fun x hx => hb x (List.mem_cons_of_mem _ hx)
    simp only [List.map_cons, List.sum_cons, List.length_cons]
    have hdecomp : f a + (tl.map f).sum - (g a + (tl.map g).sum)
        = (f a - g a) + ((tl.map f).sum - (tl.map g).sum) := by ring
    rw [hdecomp]
    calc |(f a - g a) + ((tl.map f).sum - (tl.map g).sum)|
        ≤ |f a - g a| + |(tl.map f).sum - (tl.map g).sum| := abs_add _ _
      _ ≤ c + tl.length * c := add_le_add hba hbt
      _ = (tl.length + 1) * c := by ring
      _ = ((tl.length + 1 : ℕ) : ℚ) * c := by push_cast; ring

/-- A list of counts divided by a common total and scaled sums to the scaled
quotient of the total. -/
theorem sum_map_div_total (l : List (String × ℕ)) (T : ℚ) :
    (l.map fun kv => (kv.2 : ℚ) / T * 100).sum = ((l.map Prod.snd).sum : ℚ) / T * 100 := by
  induction l with
  | nil => simp
  | cons hd tl ih =>
    simp only [List.map_cons, List.sum_cons, ih]
    push_cast
    ring

/-- C7: whenever at least one record is loaded, the per-class percentages of
`get_defect_distribution` (each `count / total * 100` rounded to 2 decimals)
sum to 100 up to the accumulated rounding error, at most half an ulp per
class; with zero records the function returns the empty structure instead of
raising or dividing by zero. -/
theorem C7_distribution_sums (data : List WaferRecord) (h : data ≠ []) :
    |((DataAggregator.get_defect_distribution data).percentages.map Prod.snd).sum - 100|
      ≤ ((DataAggregator.get_defect_distribution data).percentages.length : ℚ) / 200
    ∧ DataAggregator.get_defect_distribution [] = { counts := [], percentages := [] } := by
  refine ⟨?_, rfl⟩
  have htot := defectCounts_sum data []
  simp only [List.map_nil, List.sum_nil, Nat.zero_add] at htot
  have hlen : 0 < data.length := List.length_pos.mpr h
  have hpos : 0 < ((data.foldl (fun acc r => bumpCount acc r.defectClassOf) []).map
      Prod.snd).sum := by omega
  simp only [DataAggregator.get_defect_distribution, if_neg h, if_pos hpos]
  set C := data.foldl (fun acc r => bumpCount acc r.defectClassOf) [] with hC
  set T : ℚ := (((C.map Prod.snd).sum : ℕ) : ℚ) with hT
  have hTpos : 0 < T := by
    rw [hT]
    exact_mod_cast hpos
  have hmapmap : ((C.map fun kv => (kv.1, roundTo 2 ((kv.2 : ℚ) / T * 100))).map Prod.snd)
      = C.map fun kv => roundTo 2 ((kv.2 : ℚ) / T * 100) := by
    rw [List.map_map]
    rfl
  have hunrounded : (C.map fun kv => (kv.2 : ℚ) / T * 100).sum = 100 := by
    rw [sum_map_div_total, ← hT]
    rw [div_self (ne_of_gt hTpos)]
    ring
  have hbound := abs_sum_sub_sum_le C
    (fun kv => roundTo 2 ((kv.2 : ℚ) / T * 100))
    (fun kv => (kv.2 : ℚ) / T * 100) (1 / 200) (by norm_num)
    (fun kv _ => abs_roundTo_two_sub _)
  rw [hunrounded] at hbound
  rw [hmapmap]
  calc |(C.map fun kv => roundTo 2 ((kv.2 : ℚ) / T * 100)).sum - 100|
      ≤ C.length * (1 / 200) := hbound
    _ = (((C.map fun kv => (kv.1, roundTo 2 ((kv.2 : ℚ) / T * 100))).length : ℕ) : ℚ) / 200 := by
        rw [List.length_map]
        ring

/-- Witness for C7 at a concrete two-record data set. -/
theorem C7_distribution_sums_witness :
    |((DataAggregator.get_defect_distribution [sampleRecPass, sampleRecFail]).percentages.map
        Prod.snd).sum - 100|
      ≤ ((DataAggregator.get_defect_distribution
          [sampleRecPass, sampleRecFail]).percentages.length : ℚ) / 200 :=
  (C7_distribution_sums [sampleRecPass, sampleRecFail] (List.cons_ne_nil _ _)).1

/-- Updating a worker that was not in flight to a phase other than in flight
keeps the in-flight count. -/
theorem inflightCount_update_of_ne {n : ℕ} (f : Fin n → WorkerPhase) (i : Fin n)
    (v : WorkerPhase) (hold : f i ≠ .inflight) (hv : v ≠ .inflight) :
    inflightCount (Function.update f i v) = inflightCount f := by
  unfold inflightCount
  congr 1
  ext j
  by_cases hj : j = i
  · subst hj
    simp [Function.update_same, hv, hold]
  · simp [Function.update_noteq hj]

/-- Moving a worker into its in-flight window raises the in-flight count by
one. -/
theorem inflightCount_update_to_inflight {n : ℕ} (f : Fin n → WorkerPhase) (i : Fin n)
    (hold : f i ≠ .inflight) :
    inflightCount (Function.update f i .inflight) = inflightCount f + 1 := by
  unfold inflightCount
  have hset : (Finset.univ.filter fun j => Function.update f i .inflight j = .inflight)
      = insert i (Finset.univ.filter fun j => f j = .inflight) := by
    ext j
    by_cases hj : j = i
    · subst hj
      simp [Function.update_same]
    · simp [Function.update_noteq hj, hj]
  rw [hset, Finset.card_insert_of_not_mem (by simp [hold])]

/-- Moving a worker out of its in-flight window lowers the in-flight count by
one. -/
theorem inflightCount_update_from_inflight {n : ℕ} (f : Fin n → WorkerPhase) (i : Fin n)
    (hold : f i = .inflight) (v : WorkerPhase) (hv : v ≠ .inflight) :
    inflightCount f = inflightCount (Function.update f i v) + 1 := by
  unfold inflightCount
  have hset : (Finset.univ.filter fun j => f j = .inflight)
      = insert i (Finset.univ.filter fun j => Function.update f i v j = .inflight) := by
    ext j
    by_cases hj : j = i
    · subst hj
      simp [hold]
    · simp [Function.update_noteq hj, hj]
  rw [hset, Finset.card_insert_of_not_mem (by simp [Function.update_same, hv])]

/-- At most `n` workers can be in flight. -/
theorem inflightCount_le {n : ℕ} (f : Fin n → WorkerPhase) : inflightCount f ≤ n := by
  calc inflightCount f ≤ Finset.univ.card := Finset.card_filter_le _ _
    _ = n := by simp

/-- The two run invariants: a worker is halted only once the cap has been
reached (and the count never decreases afterwards), and the saved count plus
the number of in-flight wafers never exceeds `cap - 1 + n` — each in-flight
wafer passed its cap check while the count was still below the cap. -/
theorem sim_invariant (cap n : ℕ) (s : SimState n) (h : SimReachable cap n s) :
    (∀ i, s.phase i = .halted → cap ≤ s.resultCount)
    ∧ s.resultCount + inflightCount s.phase ≤ (cap - 1) + n := by
  induction h with
  | refl =>
    constructor
    · intro i hi
      exact absurd hi (by simp [SimState.init])
    · have hz : inflightCount (fun _ : Fin n => WorkerPhase.top) = 0 := by
        unfold inflightCount
        simp
      simp [SimState.init, hz]
  | @tail b c hprev hstep ih =>
    cases hstep with
    | observe_stop i hp hc =>
      refine ⟨fun j _ => hc, ?_⟩
      dsimp only
      have he : inflightCount (Function.update b.phase i WorkerPhase.halted)
          = inflightCount b.phase :=
        inflightCount_update_of_ne _ _ _ (by rw [hp]; simp) (by simp)
      rw [he]
      exact ih.2
    | begin_wafer i hp hc =>
      refine ⟨?_, ?_⟩
      · intro j hj
        dsimp only at hj ⊢
        by_cases hj2 : j = i
        · subst hj2
          rw [Function.update_same] at hj
          exact absurd hj (by simp)
        · rw [Function.update_noteq hj2] at hj
          exact ih.1 j hj
      · dsimp only
        have hle := inflightCount_le (Function.update b.phase i WorkerPhase.inflight)
        omega
    | save i hp =>
      refine ⟨?_, ?_⟩
      · intro j hj
        dsimp only at hj ⊢
        by_cases hj2 : j = i
        · subst hj2
          rw [Function.update_same] at hj
          exact absurd hj (by simp)
        · rw [Function.update_noteq hj2] at hj
          exact (ih.1 j hj).trans (Nat.le_succ _)
      · dsimp only
        have he := inflightCount_update_from_inflight b.phase i hp WorkerPhase.top (by simp)
        have h2 := ih.2
        omega
    | skip i hp =>
      refine ⟨?_, ?_⟩
      · intro j hj
        dsimp only at hj ⊢
        by_cases hj2 : j = i
        · subst hj2
          rw [Function.update_same] at hj
          exact absurd hj (by simp)
        · rw [Function.update_noteq hj2] at hj
          exact ih.1 j hj
      · dsimp only
        have he := inflightCount_update_from_inflight b.phase i hp WorkerPhase.top (by simp)
        have h2 := ih.2
        omega

/-- A worker that has observed the stop condition never acts again: every
step preserves its halted phase (so in particular it never appends another
record). -/
theorem halted_is_absorbing (cap n : ℕ) (s s2 : SimState n) (hstep : SimStep cap s s2)
    (i : Fin n) (hh : s.phase i = .halted) : s2.phase i = .halted := by
  cases hstep with
  | observe_stop j hp hc =>
    dsimp only
    by_cases hij : i = j
    · subst hij
      rw [Function.update_same]
    · rw [Function.update_noteq hij]
      exact hh
  | begin_wafer j hp hc =>
    dsimp only
    by_cases hij : i = j
    · subst hij
      rw [hh] at hp
      exact absurd hp (by simp)
    · rw [Function.update_noteq hij]
      exact hh
  | save j hp =>
    dsimp only
    by_cases hij : i = j
    · subst hij
      rw [hh] at hp
      exact absurd hp (by simp)
    · rw [Function.update_noteq hij]
      exact hh
  | skip j hp =>
    dsimp only
    by_cases hij : i = j
    · subst hij
      rw [hh] at hp
      exact absurd hp (by simp)
    · rw [Function.update_noteq hij]
      exact hh

/-- The completed run reached by the interleaving below, holding 7 records. -/
def C8overCapState : SimState 3 := { resultCount := 7, phase := fun _ => .halted }

/-- The schedule refuting the exactly-5 claim: worker 0 saves four wafers
alone, then all three workers pass the cap check at count 4, and all three
in-flight wafers are saved before anyone re-checks, ending at 7 records. -/
theorem C8reach_seven : SimReachable 5 3 C8overCapState := by
  have t0 : SimReachable 5 3 (SimState.init 3) := Relation.ReflTransGen.refl
  have t1 := t0.tail (SimStep.begin_wafer _ (0 : Fin 3) rfl (by decide))
  have t2 := t1.tail (SimStep.save _ (0 : Fin 3) rfl)
  have t3 := t2.tail (SimStep.begin_wafer _ (0 : Fin 3) rfl (by decide))
  have t4 := t3.tail (SimStep.save _ (0 : Fin 3) rfl)
  have t5 := t4.tail (SimStep.begin_wafer _ (0 : Fin 3) rfl (by decide))
  have t6 := t5.tail (SimStep.save _ (0 : Fin 3) rfl)
  have t7 := t6.tail (SimStep.begin_wafer _ (0 : Fin 3) rfl (by decide))
  have t8 := t7.tail (SimStep.save _ (0 : Fin 3) rfl)
  have t9 := t8.tail (SimStep.begin_wafer _ (0 : Fin 3) rfl (by decide))
  have t10 := t9.tail (SimStep.begin_wafer _ (1 : Fin 3) rfl (by decide))
  have t11 := t10.tail (SimStep.begin_wafer _ (2 : Fin 3) rfl (by decide))
  have t12 := t11.tail (SimStep.save _ (0 : Fin 3) rfl)
  have t13 := t12.tail (SimStep.save _ (1 : Fin 3) rfl)
  have t14 := t13.tail (SimStep.save _ (2 : Fin 3) rfl)
  have t15 := t14.tail (SimStep.observe_stop _ (0 : Fin 3) rfl (by decide))
  have t16 := t15.tail (SimStep.observe_stop _ (1 : Fin 3) rfl (by decide))
  have t17 := t16.tail (SimStep.observe_stop _ (2 : Fin 3) rfl (by decide))
  convert t17 using 1
  unfold C8overCapState
  congr 1
  funext i
  fin_cases i <;> rfl

/-- C8 counterexample: a run with 3 machines and `max_wafers = 5` can
complete (every worker has observed the stop condition) with 7 records in the
store, because the cap check and the append are separate critical sections —
so the store does not always contain exactly 5 records. -/
theorem C8_counterexample :
    SimReachable 5 3 C8overCapState ∧ SimFinal C8overCapState
      ∧ C8overCapState.resultCount ≠ 5 :=
  ⟨C8reach_seven, fun _ => rfl, by decide⟩

/-- C8 amended: in a run of `n` machines with cap `max_wafers = cap` that
completes because every worker observes the cap (the wall clock not expiring
first), the store ends with at least `cap` and at most `cap + n - 1` records
— exactly `cap` plus at most one in-flight record per remaining machine at
the moment the cap was reached — and a worker that has observed the stop
condition never appends again (its halted phase absorbs every later step).
With 3 machines and `max_wafers = 5` the final count lies between 5 and 7,
not necessarily exactly 5. -/
theorem C8_cap_bounds (cap n : ℕ) (hcap : 0 < cap) (hn : 0 < n) (s : SimState n)
    (hreach : SimReachable cap n s) (hfinal : SimFinal s) :
    (cap ≤ s.resultCount ∧ s.resultCount + 1 ≤ cap + n)
    ∧ ∀ s2 : SimState n, SimStep cap s s2 → ∀ i, s.phase i = .halted →
        s2.phase i = .halted := by
  have hinv := sim_invariant cap n s hreach
  refine ⟨⟨hinv.1 ⟨0, hn⟩ (hfinal ⟨0, hn⟩), ?_⟩,
    fun s2 hstep i hh => halted_is_absorbing cap n s s2 hstep i hh⟩
  have hzero : inflightCount s.phase = 0 := by
    unfold inflightCount
    rw [Finset.card_eq_zero, Finset.filter_eq_empty_iff]
    intro i _
    rw [hfinal i]
    simp
  have h2 := hinv.2
  omega

/-- Witness for C8 amended at the concrete completed 7-record run. -/
theorem C8_cap_bounds_witness :
    5 ≤ C8overCapState.resultCount ∧ C8overCapState.resultCount + 1 ≤ 5 + 3 :=
  (C8_cap_bounds 5 3 (by decide) (by decide) C8overCapState C8reach_seven
    (fun _ => rfl)).1
